import Mathlib

/-!
Shallow embedding of `src/app.py`, a minimal HTTP request handler serving
static templated pages and a file-backed blog. Strings are modelled as
`List Char` (Python `str` is a sequence of characters); the posts file is
modelled as `Option Str` (`none` = file absent). The development embeds:

* `_render_template` (lines 28-40): sequential `str.replace` over the
  context mapping;
* `_load_posts` / `_save_posts` (lines 42-57): JSON (de)serialization of
  the post list, with a concrete serializer mirroring
  `json.dump(..., ensure_ascii=False, indent=2)` and a parser modelling
  `json.load` restricted to the handler's expected schema (a JSON value
  that parses but is not a list of well-formed posts is folded into parse
  failure, since the handler's collection type is `List Post`);
* `urllib.parse.parse_qs` with its defaults (fields without `=` and
  fields with empty values are dropped; `+` becomes space; `%XX`
  percent-escapes are decoded at character level);
* `do_GET` (lines 59-90) and `do_POST` (lines 92-115).
-/

namespace HistoriaApp

set_option maxRecDepth 10000

/-- Python strings are modelled as lists of characters. -/
abbrev Str := List Char

/-- Convert a Lean string literal into the character-list model. -/
def str (s : String) : Str := s.data

/-- A blog post: `{id: int, title: str, content: str}` (spec §3). -/
structure Post where
  id : Int
  title : Str
  content : Str
deriving DecidableEq, Repr

/-! ## Template rendering (`_render_template`, lines 28-40) -/

/-- Python `s.replace(old, new)`: replace every occurrence of `old`,
leftmost first, without rescanning replacement text. The source only
calls this with the nonempty pattern `\x7b\x7bkey\x7d\x7d`; for `old = []` this
model leaves the string unchanged. -/
def replaceAll (old new : Str) : Str → Str
  | [] => []
  | c :: rest =>
    if h : old ≠ [] ∧ old.isPrefixOf (c :: rest) = true then
      new ++ replaceAll old new (List.drop old.length (c :: rest))
    else
      c :: replaceAll old new rest
termination_by s => s.length
decreasing_by
  · simp only [List.length_drop, List.length_cons]
    have hl : 0 < old.length := List.length_pos.mpr h.1
    omega
  · simp only [List.length_cons]
    omega

/-- The placeholder text `\x7b\x7bkey\x7d\x7d` built by `f'...'` on line 39. -/
def placeholder (k : Str) : Str := '\x7b' :: '\x7b' :: (k ++ ['\x7d', '\x7d'])

/-- Lines 38-39: fold `str.replace` over the context items in order. -/
def renderTemplate (tmpl : Str) (ctx : List (Str × Str)) : Str :=
  ctx.foldl (fun acc kv => replaceAll (placeholder kv.1) kv.2 acc) tmpl

/-! ### Spec-side view of templates, for the refinement claim C4

A template split into literal text and placeholder segments. `substSegs`
follows the spec's words: every `\x7b\x7bkey\x7d\x7d` placeholder whose key is in the
mapping is replaced by that key's value (unescaped), placeholders whose
keys are absent stay literal, and literal text is untouched. -/

/-- One template segment: literal text, or a `\x7b\x7bkey\x7d\x7d` placeholder. -/
inductive Seg where
  | text (l : Str)
  | hole (k : Str)
deriving DecidableEq, Repr

/-- The template string denoted by a segment list. -/
def flattenSegs : List Seg → Str
  | [] => []
  | Seg.text l :: t => l ++ flattenSegs t
  | Seg.hole k :: t => placeholder k ++ flattenSegs t

/-- Spec-side simultaneous substitution: replace each placeholder whose
key is in the mapping by that key's value, leave the rest literal. -/
def substSegs (ctx : List (Str × Str)) : List Seg → Str
  | [] => []
  | Seg.text l :: t => l ++ substSegs ctx t
  | Seg.hole k :: t =>
    (match List.lookup k ctx with
     | some v => v
     | none => placeholder k) ++ substSegs ctx t

/-- Substitute a single key, at the segment level. -/
def subst1 (k v : Str) (segs : List Seg) : List Seg :=
  segs.map fun s =>
    match s with
    | Seg.hole k2 => if k2 = k then Seg.text v else Seg.hole k2
    | Seg.text l => Seg.text l

/-- A string containing no brace characters. -/
def braceFree (s : Str) : Prop := ∀ c ∈ s, c ≠ '\x7b' ∧ c ≠ '\x7d'

/-- Well-formed segment: its text (or key) is brace-free. -/
def SegWF : Seg → Prop
  | Seg.text l => braceFree l
  | Seg.hole k => braceFree k

/-- Well-formed mapping: brace-free keys and values. -/
def ctxWF (ctx : List (Str × Str)) : Prop :=
  ∀ kv ∈ ctx, braceFree kv.1 ∧ braceFree kv.2

instance : DecidablePred braceFree := fun s =>
  inferInstanceAs (Decidable (∀ c ∈ s, c ≠ '\x7b' ∧ c ≠ '\x7d'))

instance : DecidablePred SegWF := fun s =>
  match s with
  | Seg.text l => inferInstanceAs (Decidable (braceFree l))
  | Seg.hole k => inferInstanceAs (Decidable (braceFree k))

instance : DecidablePred ctxWF := fun ctx =>
  inferInstanceAs (Decidable (∀ kv ∈ ctx, braceFree kv.1 ∧ braceFree kv.2))

/-! ## Form body parsing (`urllib.parse.parse_qs`, defaults) -/

/-- Python `s.split(sep)` for a one-character separator. -/
def splitOnChar (sep : Char) (s : Str) : List Str :=
  List.foldr
    (fun c acc =>
      match acc with
      | [] => [[c]]
      | g :: gs => if c == sep then [] :: g :: gs else (c :: g) :: gs)
    [[]] s

/-- Python `s.split(sep, 1)`: `none` when the separator is absent,
otherwise the parts before and after its first occurrence. -/
def splitOnce (sep : Char) (s : Str) : Option (Str × Str) :=
  match List.dropWhile (· != sep) s with
  | [] => none
  | _ :: t => some (List.takeWhile (· != sep) s, t)

/-- Value of one hexadecimal digit. -/
def hexVal (c : Char) : Option Nat :=
  if '0' ≤ c ∧ c ≤ '9' then some (c.toNat - 48)
  else if 'a' ≤ c ∧ c ≤ 'f' then some (c.toNat - 87)
  else if 'A' ≤ c ∧ c ≤ 'F' then some (c.toNat - 55)
  else none

/-- `urllib.parse.unquote`: decode `%XX` escapes (character-level model of
the byte-level decode; exact for ASCII escapes), leaving invalid escape
sequences literal. -/
def percentDecode : Str → Str
  | [] => []
  | '%' :: c1 :: c2 :: rest =>
    match hexVal c1, hexVal c2 with
    | some h, some l => Char.ofNat (16 * h + l) :: percentDecode rest
    | _, _ => '%' :: percentDecode (c1 :: c2 :: rest)
  | c :: rest => c :: percentDecode rest

/-- `urllib.parse.unquote_plus`: `+` to space, then percent-decode. -/
def unquotePlus (s : Str) : Str :=
  percentDecode (s.map fun c => if c = '+' then ' ' else c)

/-- `urllib.parse.parse_qsl` with default arguments: split the query on
`&`; skip empty fields, fields without `=`, and fields with an empty
value (`keep_blank_values=False`); unquote names and values. -/
def parse_qsl (qs : Str) : List (Str × Str) :=
  (splitOnChar '&' qs).filterMap fun field =>
    if field = [] then none
    else
      match splitOnce '=' field with
      | none => none
      | some (n, v) =>
        if v = [] then none else some (unquotePlus n, unquotePlus v)

/-- Append a value to a key's group, Python-dict style: extend the
existing entry, else add a new key at the end. -/
def addToGroup : List (Str × List Str) → Str → Str → List (Str × List Str)
  | [], n, v => [(n, [v])]
  | (m, vs) :: rest, n, v =>
    if m == n then (m, vs ++ [v]) :: rest else (m, vs) :: addToGroup rest n v

/-- `urllib.parse.parse_qs`: group the `parse_qsl` pairs into a dict of
value lists, preserving occurrence order. -/
def parse_qs (qs : Str) : List (Str × List Str) :=
  (parse_qsl qs).foldl (fun acc nv => addToGroup acc nv.1 nv.2) []

/-- The value of the first occurrence of `field` in the urlencoded body
(empty when the field is absent). -/
def firstFieldValue (field : Str) (body : Str) : Str :=
  (List.lookup field (parse_qsl body)).getD []

/-- Python `str.strip()` whitespace (ASCII subset; Python also strips
other Unicode space characters, which no claim exercises). -/
def pyWsChar (c : Char) : Bool :=
  c == ' ' || c == '\t' || c == '\n' || c == '\r' || c == '\x0b' || c == '\x0c'

/-- All values carried by occurrences of `field`, in occurrence order. -/
def valuesOf (field : Str) (l : List (Str × Str)) : List Str :=
  (l.filter fun nv => nv.1 == field).map Prod.snd

/-- Python `str.strip()` whitespace test is `pyWsChar`; drop leading and
trailing whitespace. -/
def pyStrip (s : Str) : Str :=
  (((List.dropWhile pyWsChar s).reverse.dropWhile pyWsChar)).reverse

/-- The trimmed first `title` value of a request body, as `do_POST`
computes it on lines 98-101 (`[]` when the field is absent). -/
def bodyTitle (body : Str) : Str :=
  pyStrip (((List.lookup (str "title") (parse_qs body)).getD []).headD [])

/-- The trimmed first `content` value of a request body (lines 99-102). -/
def bodyContent (body : Str) : Str :=
  pyStrip (((List.lookup (str "content") (parse_qs body)).getD []).headD [])

/-! ## JSON serialization (`json.dump(posts, f, ensure_ascii=False, indent=2)`) -/

/-- Decimal digit character. -/
def digitChar : Nat → Char
  | 0 => '0' | 1 => '1' | 2 => '2' | 3 => '3' | 4 => '4'
  | 5 => '5' | 6 => '6' | 7 => '7' | 8 => '8' | _ => '9'

/-- Decimal digits, most significant first, with a recursion budget (the
budget form keeps the definition computable inside the kernel; `natRepr`
supplies a sufficient budget). -/
def natReprF : Nat → Nat → Str
  | 0, _ => []
  | Nat.succ fuel, n =>
    if n < 10 then [digitChar n] else natReprF fuel (n / 10) ++ [digitChar (n % 10)]

/-- Decimal digits of a natural number, most significant first. -/
def natRepr (n : Nat) : Str := natReprF (n + 1) n

/-- Python `repr` of an `int`. -/
def intRepr (n : Int) : Str :=
  if n < 0 then '-' :: natRepr (-n).toNat else natRepr n.toNat

/-- Lowercase hexadecimal digit character. -/
def hexDigitChar : Nat → Char
  | 0 => '0' | 1 => '1' | 2 => '2' | 3 => '3' | 4 => '4'
  | 5 => '5' | 6 => '6' | 7 => '7' | 8 => '8' | 9 => '9'
  | 10 => 'a' | 11 => 'b' | 12 => 'c' | 13 => 'd' | 14 => 'e' | _ => 'f'

/-- JSON string escaping with `ensure_ascii=False`: escape the quote,
backslash and the named control characters, `\u00XX` for the remaining
control characters, everything else literal. -/
def escChar (c : Char) : Str :=
  if c == '"' then ['\\', '"']
  else if c == '\\' then ['\\', '\\']
  else if c == '\n' then ['\\', 'n']
  else if c == '\r' then ['\\', 'r']
  else if c == '\t' then ['\\', 't']
  else if c == '\x08' then ['\\', 'b']
  else if c == '\x0c' then ['\\', 'f']
  else if c.toNat < 32 then
    ['\\', 'u', '0', '0', hexDigitChar (c.toNat / 16), hexDigitChar (c.toNat % 16)]
  else [c]

/-- Escape every character of a string. -/
def escapeStr (s : Str) : Str := List.foldr (fun c acc => escChar c ++ acc) [] s

/-- A serialized JSON string, quotes included. -/
def dumpStr (s : Str) : Str := '"' :: escapeStr s ++ ['"']

/-- Join with a separator (Python `sep.join`). -/
def joinSep (sep : Str) : List Str → Str
  | [] => []
  | [x] => x
  | x :: xs => x ++ sep ++ joinSep sep xs

/-- The newline-plus-indent emitted between object members at depth 1. -/
def nl4 : Str := str "\n    "

/-- The newline-plus-indent emitted between array items at depth 0. -/
def nl2 : Str := str "\n  "

/-- One post as `json.dump` renders it at nesting depth 1 with
`indent=2`: keys in the insertion order of line 106. -/
def dumpPost (p : Post) : Str :=
  str "\x7b" ++ nl4 ++ str "\"id\"" ++ str ": " ++ intRepr p.id ++
  str "," ++ nl4 ++ str "\"title\"" ++ str ": " ++ dumpStr p.title ++
  str "," ++ nl4 ++ str "\"content\"" ++ str ": " ++ dumpStr p.content ++
  nl2 ++ str "\x7d"

/-- The whole collection as `json.dump(posts, f, ensure_ascii=False,
indent=2)` writes it. -/
def dumpPosts : List Post → Str
  | [] => str "[]"
  | ps => str "[" ++ nl2 ++ joinSep (str "," ++ nl2) (ps.map dumpPost) ++ str "\n" ++ str "]"

/-! ## JSON parsing (`json.load`, restricted to the handler's schema) -/

/-- JSON whitespace. -/
def wsChar (c : Char) : Bool := c == ' ' || c == '\t' || c == '\n' || c == '\r'

/-- Skip JSON whitespace. -/
def skipWs (s : Str) : Str := List.dropWhile wsChar s

/-- Consume an exact literal. -/
def expectLit (pat s : Str) : Option Str :=
  if pat.isPrefixOf s then some (List.drop pat.length s) else none

/-- Consume one exact character. -/
def expectChar (c : Char) : Str → Option Str
  | d :: rest => if d == c then some rest else none
  | [] => none

/-- Decimal digit test. -/
def isDigitChar (c : Char) : Bool := decide ('0' ≤ c ∧ c ≤ '9')

/-- Value of a digit string, most significant first. -/
def digitsToNat (ds : Str) : Nat :=
  List.foldl (fun acc c => 10 * acc + (c.toNat - 48)) 0 ds

/-- Parse a nonempty run of decimal digits. -/
def parseNat (s : Str) : Option (Nat × Str) :=
  if List.takeWhile isDigitChar s = [] then none
  else some (digitsToNat (List.takeWhile isDigitChar s), List.dropWhile isDigitChar s)

/-- Parse a JSON integer (an optional sign and a digit run). -/
def parseInt : Str → Option (Int × Str)
  | '-' :: rest =>
    match parseNat rest with
    | some (m, r) => some (-(m : Int), r)
    | none => none
  | s =>
    match parseNat s with
    | some (m, r) => some ((m : Int), r)
    | none => none

/-- Prepend a character to a parsed string result. -/
def consCh (c : Char) : Option (Str × Str) → Option (Str × Str)
  | some (s, r) => some (c :: s, r)
  | none => none

/-- Parse a JSON string body up to the closing quote, decoding escapes
(`\uXXXX` at scalar-value level; surrogate pairs are out of the model's
scope since the embedded serializer never emits them). -/
def parseStringBody : Str → Option (Str × Str)
  | [] => none
  | '"' :: rest => some ([], rest)
  | '\\' :: e :: rest =>
    if e == '"' then consCh '"' (parseStringBody rest)
    else if e == '\\' then consCh '\\' (parseStringBody rest)
    else if e == '/' then consCh '/' (parseStringBody rest)
    else if e == 'n' then consCh '\n' (parseStringBody rest)
    else if e == 'r' then consCh '\r' (parseStringBody rest)
    else if e == 't' then consCh '\t' (parseStringBody rest)
    else if e == 'b' then consCh '\x08' (parseStringBody rest)
    else if e == 'f' then consCh '\x0c' (parseStringBody rest)
    else if e == 'u' then
      match rest with
      | h1 :: h2 :: h3 :: h4 :: r =>
        match hexVal h1, hexVal h2, hexVal h3, hexVal h4 with
        | some a, some b, some c, some d =>
          consCh (Char.ofNat (((a * 16 + b) * 16 + c) * 16 + d)) (parseStringBody r)
        | _, _, _, _ => none
      | _ => none
    else none
  | c :: rest => if c.toNat < 32 then none else consCh c (parseStringBody rest)

/-- Parse a quoted JSON string. -/
def parseString : Str → Option (Str × Str)
  | '"' :: rest => parseStringBody rest
  | _ => none

/-- Parse one post object in the canonical key layout the serializer
writes (`json.load` also accepts other member orders; those are folded
into the schema check). -/
def parsePostObj (s : Str) : Option (Post × Str) :=
  (expectLit (str "\x7b") s).bind fun s1 =>
  (expectLit (str "\"id\"") (skipWs s1)).bind fun s2 =>
  (expectChar ':' (skipWs s2)).bind fun s3 =>
  (parseInt (skipWs s3)).bind fun iv =>
  (expectChar ',' (skipWs iv.2)).bind fun s5 =>
  (expectLit (str "\"title\"") (skipWs s5)).bind fun s6 =>
  (expectChar ':' (skipWs s6)).bind fun s7 =>
  (parseString (skipWs s7)).bind fun tv =>
  (expectChar ',' (skipWs tv.2)).bind fun s9 =>
  (expectLit (str "\"content\"") (skipWs s9)).bind fun s10 =>
  (expectChar ':' (skipWs s10)).bind fun s11 =>
  (parseString (skipWs s11)).bind fun cv =>
  (expectChar '\x7d' (skipWs cv.2)).map fun s13 => (⟨iv.1, tv.1, cv.1⟩, s13)

/-- Parse the comma-separated items of a nonempty post array, up to and
including the closing bracket. -/
def parseItems : Nat → Str → Option (List Post × Str)
  | 0, _ => none
  | Nat.succ fuel, s =>
    (parsePostObj s).bind fun pr =>
      match skipWs pr.2 with
      | ']' :: r => some ([pr.1], r)
      | ',' :: r => (parseItems fuel (skipWs r)).map fun qr => (pr.1 :: qr.1, qr.2)
      | _ => none

/-- `json.load` of the posts file, restricted to the handler's schema:
a JSON array of post objects, with nothing but whitespace around it. -/
def parsePosts (s : Str) : Option (List Post) :=
  match skipWs s with
  | '[' :: r =>
    match skipWs r with
    | ']' :: r2 => if skipWs r2 = [] then some [] else none
    | r1 =>
      match parseItems (s.length + 1) r1 with
      | some (ps, r2) => if skipWs r2 = [] then some ps else none
      | none => none
  | _ => none

/-! ## Post store (`_load_posts` lines 42-51, `_save_posts` lines 53-57) -/

/-- `_load_posts`: an absent file (line 45) or contents that fail to
parse (lines 47-51) give the empty list; otherwise the parsed list. -/
def loadPosts (file : Option Str) : List Post :=
  match file with
  | none => []
  | some s => (parsePosts s).getD []

/-- `_save_posts`: overwrite the file with the serialized collection. -/
def savePosts (posts : List Post) : Option Str := some (dumpPosts posts)

/-! ## GET handling (`do_GET`, lines 59-90) -/

/-- Line 61: `self.path.split('?', 1)[0]`. -/
def stripQuery (s : Str) : Str := List.takeWhile (· != '?') s

/-- One rendered post block (line 79). -/
def postDiv (p : Post) : Str :=
  str "<div class=\"post\"><h2>" ++ p.title ++ str "</h2><p>" ++
  p.content ++ str "</p></div>"

/-- The descending-id comparison used by `sorted(..., reverse=True)`. -/
def postGe (p q : Post) : Prop := q.id ≤ p.id

instance : DecidableRel postGe := fun p q =>
  inferInstanceAs (Decidable (q.id ≤ p.id))

instance : IsTotal Post postGe := ⟨fun p q => le_total q.id p.id⟩

instance : IsTrans Post postGe := ⟨fun _ _ _ h1 h2 => le_trans h2 h1⟩

/-- Line 74: stable sort by `id`, descending. -/
def sortPostsDesc (posts : List Post) : List Post :=
  List.insertionSort postGe posts

/-- The empty-state placeholder of line 80. -/
def emptyBlogMsg : Str := str "<p>No hay posts todavía. ¡Agrega uno nuevo!</p>"

/-- Python `'\n'.join`. -/
def joinNL : List Str → Str
  | [] => []
  | [x] => x
  | x :: xs => x ++ '\n' :: joinNL xs

/-- Lines 75-80: the `posts` substitution value for the blog template. -/
def postsHtml (posts : List Post) : Str :=
  match (sortPostsDesc posts).map postDiv with
  | [] => emptyBlogMsg
  | parts => joinNL parts

/-- A GET outcome: a rendered 200 page, or the fallback to
`SimpleHTTPRequestHandler.do_GET` (whose `translate_path` also abandons
query parameters, hence the stripped path). -/
inductive GetResponse where
  | page (body : Str)
  | fallback (path : Str)
deriving DecidableEq, Repr

/-- `do_GET`: dispatch on the query-stripped path. `tmpl` maps a template
file name to its contents (templates are data files outside `src/`). -/
def doGet (tmpl : String → Str) (file : Option Str) (rawPath : Str) : GetResponse :=
  let path := stripQuery rawPath
  if path = str "/" then
    GetResponse.page (renderTemplate (tmpl "home_static.html") [(str "title", str "Principal")])
  else if path = str "/section1" then
    GetResponse.page (renderTemplate (tmpl "section1_static.html") [(str "title", str "Sección 1")])
  else if path = str "/section2" then
    GetResponse.page (renderTemplate (tmpl "section2_static.html") [(str "title", str "Sección 2")])
  else if path = str "/section3" then
    GetResponse.page (renderTemplate (tmpl "section3_static.html") [(str "title", str "Sección 3")])
  else if path = str "/blog" then
    GetResponse.page (renderTemplate (tmpl "blog_static.html")
      [(str "title", str "Blog"), (str "posts", postsHtml (loadPosts file))])
  else if path = str "/admin/new_post" then
    GetResponse.page (renderTemplate (tmpl "new_post_static.html") [(str "title", str "Nuevo Post")])
  else
    GetResponse.fallback path

/-! ## POST handling (`do_POST`, lines 92-115) -/

/-- A POST outcome: the 303 redirect of lines 109-111, or the 404 of
lines 113-115. -/
inductive PostResponse where
  | redirect (code : Nat) (location : Str)
  | errorStatus (code : Nat)
deriving DecidableEq, Repr

/-- Line 105: `max([p.get('id', 0) for p in posts], default=0)`. -/
def maxDefault (l : List Int) (d : Int) : Int :=
  match l with
  | [] => d
  | x :: xs => List.foldl max x xs

/-- The id assigned to a new post (line 105). -/
def nextId (posts : List Post) : Int := maxDefault (posts.map Post.id) 0 + 1

/-- The creation endpoint path. -/
def newPostPath : Str := str "/admin/new_post"

/-- `do_POST`: on `/admin/new_post`, parse the urlencoded body; when both
fields are present and nonempty after stripping, append a fresh post and
save; always redirect 303 to `/blog`. Other paths get 404. Returns the
new file state and the response. -/
def doPost (path body : Str) (file : Option Str) : Option Str × PostResponse :=
  if path = newPostPath then
    let params := parse_qs body
    let titleList := (List.lookup (str "title") params).getD []
    let contentList := (List.lookup (str "content") params).getD []
    let file2 :=
      if titleList ≠ [] ∧ contentList ≠ [] then
        let title := pyStrip (titleList.headD [])
        let contentText := pyStrip (contentList.headD [])
        if title ≠ [] ∧ contentText ≠ [] then
          let posts := loadPosts file
          savePosts (posts ++ [⟨nextId posts, title, contentText⟩])
        else file
      else file
    (file2, PostResponse.redirect 303 (str "/blog"))
  else
    (file, PostResponse.errorStatus 404)

/-! ## Template lemmas -/

theorem isPrefixOf_self_append (l s : Str) : l.isPrefixOf (l ++ s) = true := by
  induction l with
  | nil => simp [List.isPrefixOf]
  | cons a t ih => simp [List.isPrefixOf, ih]

theorem replaceAll_nil (old new : Str) : replaceAll old new [] = [] := by
  simp [replaceAll]

theorem replaceAll_pos (old new : Str) (c : Char) (s : Str)
    (h1 : old ≠ []) (h2 : old.isPrefixOf (c :: s) = true) :
    replaceAll old new (c :: s) = new ++ replaceAll old new (List.drop old.length (c :: s)) := by
  rw [replaceAll]
  rw [dif_pos ⟨h1, h2⟩]

theorem replaceAll_neg (old new : Str) (c : Char) (s : Str)
    (h2 : old.isPrefixOf (c :: s) = false) :
    replaceAll old new (c :: s) = c :: replaceAll old new s := by
  rw [replaceAll]
  rw [dif_neg]
  simp [h2]

theorem braceFree_cons (c : Char) (s : Str) (h : braceFree (c :: s)) :
    (c ≠ '\x7b' ∧ c ≠ '\x7d') ∧ braceFree s := by
  constructor
  · exact h c (by simp)
  · intro d hd
    exact h d (by simp [hd])

theorem key_closes_prefix_eq : ∀ (k k' t : Str), braceFree k → braceFree k' →
    (k ++ ['\x7d', '\x7d']).isPrefixOf (k' ++ '\x7d' :: '\x7d' :: t) = true → k = k' := by
  intro k
  induction k with
  | nil =>
    intro k' t _ hk' hpre
    cases k' with
    | nil => rfl
    | cons c k2 =>
      exfalso
      have hc := (braceFree_cons c k2 hk').1.2
      simp [List.isPrefixOf] at hpre
      exact hc hpre.1.symm
  | cons a k2 ih =>
    intro k' t hk hk' hpre
    cases k' with
    | nil =>
      exfalso
      have ha := (braceFree_cons a k2 hk).1.2
      simp [List.isPrefixOf] at hpre
      exact ha hpre.1
    | cons b k2' =>
      simp only [List.cons_append, List.isPrefixOf, Bool.and_eq_true, beq_iff_eq] at hpre
      have he : a = b := hpre.1
      have h2 := ih k2' t (braceFree_cons a k2 hk).2 (braceFree_cons b k2' hk').2
        (by simpa using hpre.2)
      rw [he, h2]

theorem placeholder_ne_nil (k : Str) : placeholder k ≠ [] := by simp [placeholder]

theorem placeholder_prefix_eq (k k' t : Str) (hk : braceFree k) (hk' : braceFree k')
    (h : (placeholder k).isPrefixOf (placeholder k' ++ t) = true) : k = k' := by
  apply key_closes_prefix_eq k k' t hk hk'
  simp only [placeholder, List.cons_append, List.isPrefixOf, Bool.and_eq_true, beq_iff_eq] at h
  simpa [List.append_assoc] using h.2.2

theorem placeholder_not_prefix_cons (k : Str) (c : Char) (s : Str) (hc : c ≠ '\x7b') :
    (placeholder k).isPrefixOf (c :: s) = false := by
  cases hp : (placeholder k).isPrefixOf (c :: s) with
  | false => rfl
  | true =>
    exfalso
    simp only [placeholder, List.isPrefixOf, Bool.and_eq_true, beq_iff_eq] at hp
    exact hc hp.1.symm

theorem replaceAll_start (old new s : Str) (h1 : old ≠ []) :
    replaceAll old new (old ++ s) = new ++ replaceAll old new s := by
  obtain ⟨c, t, hct⟩ : ∃ c t, old = c :: t := by
    cases old with
    | nil => exact absurd rfl h1
    | cons c t => exact ⟨c, t, rfl⟩
  subst hct
  rw [List.cons_append, replaceAll_pos _ _ _ _ h1
    (by rw [← List.cons_append]; exact isPrefixOf_self_append _ _)]
  rw [← List.cons_append, List.drop_left]

theorem replaceAll_text_skip (k v l s : Str) (hl : braceFree l) :
    replaceAll (placeholder k) v (l ++ s) = l ++ replaceAll (placeholder k) v s := by
  induction l with
  | nil => simp
  | cons c t ih =>
    have hbf := braceFree_cons c t hl
    rw [List.cons_append,
      replaceAll_neg _ _ _ _ (placeholder_not_prefix_cons k c (t ++ s) hbf.1.1),
      ih hbf.2, List.cons_append]

theorem replaceAll_other_skip (k k' v s : Str) (hne : k ≠ k') (hk : braceFree k)
    (hk' : braceFree k') :
    replaceAll (placeholder k) v (placeholder k' ++ s) =
      placeholder k' ++ replaceAll (placeholder k) v s := by
  have h0 : (placeholder k).isPrefixOf (placeholder k' ++ s) = false := by
    cases hp : (placeholder k).isPrefixOf (placeholder k' ++ s) with
    | false => rfl
    | true => exact absurd (placeholder_prefix_eq k k' s hk hk' hp) hne
  have e : placeholder k' ++ s = '\x7b' :: ('\x7b' :: (k' ++ ('\x7d' :: '\x7d' :: s))) := by
    simp [placeholder]
  rw [e] at h0
  rw [e, replaceAll_neg _ _ _ _ h0]
  have h1 : (placeholder k).isPrefixOf ('\x7b' :: (k' ++ ('\x7d' :: '\x7d' :: s))) = false := by
    cases hp : (placeholder k).isPrefixOf ('\x7b' :: (k' ++ ('\x7d' :: '\x7d' :: s))) with
    | false => rfl
    | true =>
      exfalso
      simp only [placeholder, List.isPrefixOf, Bool.and_eq_true, beq_iff_eq] at hp
      cases k' with
      | nil => simp [List.isPrefixOf] at hp
      | cons b k2 =>
        have hb := (braceFree_cons b k2 hk').1.1
        simp only [List.cons_append, List.isPrefixOf, Bool.and_eq_true, beq_iff_eq] at hp
        exact hb hp.2.1.symm
  rw [replaceAll_neg _ _ _ _ h1]
  rw [replaceAll_text_skip k v k' ('\x7d' :: '\x7d' :: s) hk']
  have h2 : ∀ u : Str, (placeholder k).isPrefixOf ('\x7d' :: u) = false := by
    intro u
    cases hp : (placeholder k).isPrefixOf ('\x7d' :: u) with
    | false => rfl
    | true =>
      exfalso
      simp only [placeholder, List.isPrefixOf, Bool.and_eq_true, beq_iff_eq] at hp
      exact absurd hp.1 (by decide)
  rw [replaceAll_neg _ _ _ _ (h2 _), replaceAll_neg _ _ _ _ (h2 _)]
  simp [placeholder]

theorem substSegs_nil (segs : List Seg) : substSegs [] segs = flattenSegs segs := by
  induction segs with
  | nil => rfl
  | cons sg t ih => cases sg <;> simp [substSegs, flattenSegs, ih, List.lookup]

theorem subst1_wf (k v : Str) (hv : braceFree v) (segs : List Seg)
    (h : ∀ s ∈ segs, SegWF s) : ∀ s ∈ subst1 k v segs, SegWF s := by
  intro s hs
  simp only [subst1, List.mem_map] at hs
  obtain ⟨a, ha, rfl⟩ := hs
  cases a with
  | text l => exact h _ ha
  | hole k2 =>
    by_cases hk2 : k2 = k
    · simpa [hk2, SegWF] using hv
    · simpa [hk2, SegWF] using h _ ha

theorem substSegs_cons (k v : Str) (rest : List (Str × Str)) (segs : List Seg) :
    substSegs ((k, v) :: rest) segs = substSegs rest (subst1 k v segs) := by
  induction segs with
  | nil => rfl
  | cons sg t ih =>
    cases sg with
    | text l =>
      simp only [substSegs, subst1, List.map_cons]
      rw [show subst1 k v t = List.map _ t from rfl] at ih
      rw [ih]
    | hole k2 =>
      by_cases hk2 : k2 = k
      · subst hk2
        simp only [substSegs, subst1, List.map_cons, if_pos rfl, List.lookup,
          beq_self_eq_true]
        rw [show subst1 k2 v t = List.map _ t from rfl] at ih
        rw [ih]
      · have hbeq : (k2 == k) = false := by simp [hk2]
        simp only [substSegs, subst1, List.map_cons, if_neg hk2, List.lookup, hbeq]
        rw [show subst1 k v t = List.map _ t from rfl] at ih
        rw [ih]

theorem replaceAll_flattenSegs (k v : Str) (hk : braceFree k) (segs : List Seg)
    (hsegs : ∀ s ∈ segs, SegWF s) :
    replaceAll (placeholder k) v (flattenSegs segs) = flattenSegs (subst1 k v segs) := by
  induction segs with
  | nil => simp [flattenSegs, subst1, replaceAll_nil]
  | cons sg t ih =>
    have hsg := hsegs sg (by simp)
    have ht : ∀ s ∈ t, SegWF s := fun s hs => hsegs s (by simp [hs])
    cases sg with
    | text l =>
      simp only [flattenSegs, subst1, List.map_cons]
      rw [replaceAll_text_skip k v l _ hsg]
      rw [show subst1 k v t = List.map _ t from rfl] at ih
      rw [ih ht]
    | hole k2 =>
      by_cases hk2 : k2 = k
      · subst hk2
        simp only [flattenSegs, subst1, List.map_cons, if_pos rfl]
        rw [replaceAll_start _ _ _ (placeholder_ne_nil k2)]
        rw [show subst1 k2 v t = List.map _ t from rfl] at ih
        rw [ih ht]
      · simp only [flattenSegs, subst1, List.map_cons, if_neg hk2]
        rw [replaceAll_other_skip k k2 v _ (fun he => hk2 he.symm) hk hsg]
        rw [show subst1 k v t = List.map _ t from rfl] at ih
        rw [ih ht]

/-- Claim C4 (amended): for templates that are alternations of brace-free
literal text and placeholders with brace-free keys, and mappings whose
keys and values are brace-free, rendering replaces every occurrence of
each `\x7b\x7bkey\x7d\x7d` placeholder whose key is in the mapping with that key's
value verbatim (no escaping), and leaves placeholders whose keys are not
in the mapping literally unchanged. -/
theorem renderTemplate_replaces_each_placeholder :
    ∀ (ctx : List (Str × Str)), ctxWF ctx →
      ∀ (segs : List Seg), (∀ s ∈ segs, SegWF s) →
        renderTemplate (flattenSegs segs) ctx = substSegs ctx segs := by
  intro ctx
  induction ctx with
  | nil =>
    intro _ segs _
    rw [substSegs_nil]
    rfl
  | cons kv rest ih =>
    intro hctx segs hsegs
    obtain ⟨k, v⟩ := kv
    have hkv := hctx (k, v) (by simp)
    have hrest : ctxWF rest := fun kv2 h2 => hctx kv2 (by simp [h2])
    rw [substSegs_cons]
    rw [show renderTemplate (flattenSegs segs) ((k, v) :: rest) =
      renderTemplate (replaceAll (placeholder k) v (flattenSegs segs)) rest from rfl]
    rw [replaceAll_flattenSegs k v hkv.1 segs hsegs]
    exact ih hrest (subst1 k v segs) (subst1_wf k v hkv.2 segs hsegs)

/-- Claim C4, counterexample: with mapping `a ↦ "\x7b\x7bb\x7d\x7d", b ↦ "X"` and
template `"\x7b\x7ba\x7d\x7d"`, the code substitutes sequentially and produces `"X"`,
while the claim mandates replacing the single `\x7b\x7ba\x7d\x7d` occurrence by the
value `"\x7b\x7bb\x7d\x7d"` and leaving it at that. -/
theorem renderTemplate_cascades_counterexample :
    renderTemplate (flattenSegs [Seg.hole (str "a")])
        [(str "a", placeholder (str "b")), (str "b", str "X")] = str "X" ∧
      substSegs [(str "a", placeholder (str "b")), (str "b", str "X")]
        [Seg.hole (str "a")] = placeholder (str "b") ∧
      str "X" ≠ placeholder (str "b") := by
  refine ⟨?_, by decide, by decide⟩
  rw [show flattenSegs [Seg.hole (str "a")] = placeholder (str "a") ++ [] from rfl]
  rw [show ∀ t : Str, renderTemplate t [(str "a", placeholder (str "b")), (str "b", str "X")] =
    replaceAll (placeholder (str "b")) (str "X")
      (replaceAll (placeholder (str "a")) (placeholder (str "b")) t) from fun t => rfl]
  rw [replaceAll_start _ _ _ (placeholder_ne_nil _), replaceAll_nil]
  rw [replaceAll_start _ _ _ (placeholder_ne_nil _), replaceAll_nil]
  simp

/-- Witness for the amended C4 at a concrete template and mapping. -/
theorem renderTemplate_replaces_each_placeholder_witness :
    renderTemplate
        (flattenSegs [Seg.text (str "<h1>"), Seg.hole (str "title"),
          Seg.text (str "</h1>"), Seg.hole (str "missing")])
        [(str "title", str "Blog")] =
      substSegs [(str "title", str "Blog")]
        [Seg.text (str "<h1>"), Seg.hole (str "title"),
          Seg.text (str "</h1>"), Seg.hole (str "missing")] :=
  renderTemplate_replaces_each_placeholder
    [(str "title", str "Blog")] (by decide)
    [Seg.text (str "<h1>"), Seg.hole (str "title"),
      Seg.text (str "</h1>"), Seg.hole (str "missing")] (by decide)


/-! ## Round-trip lemmas for the JSON store -/

theorem takeWhile_app_all {p : Char → Bool} :
    ∀ (xs ys : Str), (∀ c ∈ xs, p c = true) →
      List.takeWhile p (xs ++ ys) = xs ++ List.takeWhile p ys := by
  intro xs
  induction xs with
  | nil => intro ys _; rfl
  | cons a t ih =>
    intro ys h
    rw [List.cons_append, List.takeWhile_cons, if_pos (h a (by simp)),
      ih ys (fun c hc => h c (by simp [hc])), List.cons_append]

theorem dropWhile_app_all {p : Char → Bool} :
    ∀ (xs ys : Str), (∀ c ∈ xs, p c = true) →
      List.dropWhile p (xs ++ ys) = List.dropWhile p ys := by
  intro xs
  induction xs with
  | nil => intro ys _; rfl
  | cons a t ih =>
    intro ys h
    rw [List.cons_append, List.dropWhile_cons, if_pos (h a (by simp)),
      ih ys (fun c hc => h c (by simp [hc]))]

theorem dropWhile_self_of_takeWhile_nil {p : Char → Bool} (ys : Str)
    (h : List.takeWhile p ys = []) : List.dropWhile p ys = ys := by
  cases ys with
  | nil => rfl
  | cons y t =>
    rw [List.takeWhile_cons] at h
    rw [List.dropWhile_cons]
    by_cases hp : p y = true
    · rw [if_pos hp] at h
      simp at h
    · rw [if_neg hp]

theorem digitChar_isDigit (m : Nat) : isDigitChar (digitChar m) = true := by
  unfold digitChar
  split <;> decide

theorem digitChar_toNat (m : Nat) (h : m < 10) : (digitChar m).toNat = 48 + m := by
  interval_cases m <;> decide

theorem natReprF_irrel : ∀ (f1 f2 n : Nat), n < f1 → n < f2 →
    natReprF f1 n = natReprF f2 n := by
  intro f1
  induction f1 with
  | zero => omega
  | succ f1 ih =>
    intro f2 n h1 h2
    cases f2 with
    | zero => omega
    | succ f2 =>
      simp only [natReprF]
      by_cases h10 : n < 10
      · simp [h10]
      · simp only [if_neg h10]
        have hd : n / 10 < n := Nat.div_lt_self (by omega) (by omega)
        rw [ih f2 (n / 10) (by omega) (by omega)]

theorem natRepr_eq (n : Nat) : natRepr n =
    if n < 10 then [digitChar n] else natRepr (n / 10) ++ [digitChar (n % 10)] := by
  show natReprF (n + 1) n = _
  rw [show natReprF (n + 1) n =
    (if n < 10 then [digitChar n] else natReprF n (n / 10) ++ [digitChar (n % 10)]) from rfl]
  by_cases h10 : n < 10
  · simp [h10]
  · have hd : n / 10 < n := Nat.div_lt_self (by omega) (by omega)
    rw [if_neg h10, if_neg h10, natReprF_irrel n (n / 10 + 1) (n / 10) hd (by omega)]
    rfl

theorem natRepr_all_digits (n : Nat) : ∀ c ∈ natRepr n, isDigitChar c = true := by
  induction n using Nat.strong_induction_on with
  | _ n ih =>
    rw [natRepr_eq]
    by_cases h10 : n < 10
    · simp only [if_pos h10, List.mem_singleton]
      intro c hc
      subst hc
      exact digitChar_isDigit n
    · simp only [if_neg h10, List.mem_append, List.mem_singleton]
      intro c hc
      rcases hc with hc | hc
      · exact ih (n / 10) (Nat.div_lt_self (by omega) (by omega)) c hc
      · subst hc
        exact digitChar_isDigit _

theorem natRepr_ne_nil (n : Nat) : natRepr n ≠ [] := by
  rw [natRepr_eq]
  by_cases h10 : n < 10 <;> simp [h10]

theorem digitsToNat_append_digit (xs : Str) (d : Char) :
    digitsToNat (xs ++ [d]) = 10 * digitsToNat xs + (d.toNat - 48) := by
  unfold digitsToNat
  rw [List.foldl_append]
  rfl

theorem digitsToNat_natRepr (n : Nat) : digitsToNat (natRepr n) = n := by
  induction n using Nat.strong_induction_on with
  | _ n ih =>
    rw [natRepr_eq]
    by_cases h10 : n < 10
    · rw [if_pos h10]
      show 10 * 0 + ((digitChar n).toNat - 48) = n
      rw [digitChar_toNat n h10]
      omega
    · rw [if_neg h10, digitsToNat_append_digit,
        ih (n / 10) (Nat.div_lt_self (by omega) (by omega)),
        digitChar_toNat (n % 10) (by omega)]
      omega

theorem parseNat_natRepr (n : Nat) (rest : Str)
    (h : List.takeWhile isDigitChar rest = []) :
    parseNat (natRepr n ++ rest) = some (n, rest) := by
  unfold parseNat
  rw [takeWhile_app_all _ _ (natRepr_all_digits n), h, List.append_nil,
    dropWhile_app_all _ _ (natRepr_all_digits n), dropWhile_self_of_takeWhile_nil _ h,
    if_neg (natRepr_ne_nil n), digitsToNat_natRepr]

theorem parseInt_intRepr (i : Int) (rest : Str)
    (h : List.takeWhile isDigitChar rest = []) :
    parseInt (intRepr i ++ rest) = some (i, rest) := by
  unfold intRepr
  by_cases hneg : i < 0
  · rw [if_pos hneg, List.cons_append]
    rw [show parseInt ('-' :: (natRepr (-i).toNat ++ rest)) =
      (match parseNat (natRepr (-i).toNat ++ rest) with
       | some (m, r) => some (-(m : Int), r)
       | none => none) from rfl]
    rw [parseNat_natRepr _ _ h]
    have : ((-i).toNat : Int) = -i := Int.toNat_of_nonneg (by omega)
    simp [this]
  · rw [if_neg hneg]
    obtain ⟨c, t, hct⟩ : ∃ c t, natRepr i.toNat = c :: t := by
      cases hnr : natRepr i.toNat with
      | nil => exact absurd hnr (natRepr_ne_nil _)
      | cons c t => exact ⟨c, t, rfl⟩
    have hcd : isDigitChar c = true := natRepr_all_digits i.toNat c (by rw [hct]; simp)
    have hcne : c ≠ '-' := by
      intro he
      rw [he] at hcd
      exact absurd hcd (by decide)
    rw [hct, List.cons_append]
    unfold parseInt
    split
    · rename_i r heq
      injection heq with h1 h2
      exact absurd h1 hcne
    · rw [← List.cons_append, ← hct, parseNat_natRepr _ _ h]
      have : (i.toNat : Int) = i := Int.toNat_of_nonneg (by omega)
      simp [this]

theorem hexVal_hexDigitChar (m : Nat) (h : m < 16) : hexVal (hexDigitChar m) = some m := by
  interval_cases m <;> decide

theorem consCh_some (c : Char) (s r : Str) : consCh c (some (s, r)) = some (c :: s, r) := rfl

theorem psb_plain (c : Char) (X : Str) (h1 : ¬ c = '"') (h2 : ¬ c = '\\')
    (h3 : ¬ c.toNat < 32) :
    parseStringBody (c :: X) = consCh c (parseStringBody X) := by
  conv_lhs => unfold parseStringBody
  split
  · rename_i heq
    exact (List.cons_ne_nil c X heq).elim
  · rename_i heq
    injection heq with ha hb
    exact absurd ha h1
  · rename_i e r heq
    injection heq with ha hb
    exact absurd ha h2
  · rename_i x cc rr hne1 hne2 heq
    injection heq with hc hr
    subst hc
    subst hr
    rw [if_neg h3]

theorem psb_esc_quote (X : Str) :
    parseStringBody ('\\' :: '"' :: X) = consCh '"' (parseStringBody X) := by
  rw [parseStringBody.eq_def]
  simp +decide

theorem psb_esc_backslash (X : Str) :
    parseStringBody ('\\' :: '\\' :: X) = consCh '\\' (parseStringBody X) := by
  rw [parseStringBody.eq_def]
  simp +decide

theorem psb_esc_n (X : Str) :
    parseStringBody ('\\' :: 'n' :: X) = consCh '\n' (parseStringBody X) := by
  rw [parseStringBody.eq_def]
  simp +decide

theorem psb_esc_r (X : Str) :
    parseStringBody ('\\' :: 'r' :: X) = consCh '\r' (parseStringBody X) := by
  rw [parseStringBody.eq_def]
  simp +decide

theorem psb_esc_t (X : Str) :
    parseStringBody ('\\' :: 't' :: X) = consCh '\t' (parseStringBody X) := by
  rw [parseStringBody.eq_def]
  simp +decide

theorem psb_esc_b (X : Str) :
    parseStringBody ('\\' :: 'b' :: X) = consCh '\x08' (parseStringBody X) := by
  rw [parseStringBody.eq_def]
  simp +decide

theorem psb_esc_f (X : Str) :
    parseStringBody ('\\' :: 'f' :: X) = consCh '\x0c' (parseStringBody X) := by
  rw [parseStringBody.eq_def]
  simp +decide

theorem psb_esc_u (h3 h4 : Char) (a b : Nat) (X : Str)
    (ha : hexVal h3 = some a) (hb : hexVal h4 = some b) :
    parseStringBody ('\\' :: 'u' :: '0' :: '0' :: h3 :: h4 :: X) =
      consCh (Char.ofNat (a * 16 + b)) (parseStringBody X) := by
  rw [parseStringBody.eq_def]
  simp +decide [show hexVal '0' = some 0 from by decide, ha, hb]

theorem escapeStr_cons (c : Char) (t : Str) :
    escapeStr (c :: t) = escChar c ++ escapeStr t := rfl

theorem parseStringBody_escape : ∀ (s rest : Str),
    parseStringBody (escapeStr s ++ '"' :: rest) = some (s, rest) := by
  intro s
  induction s with
  | nil =>
    intro rest
    rw [show escapeStr [] ++ '"' :: rest = '"' :: rest from rfl, parseStringBody.eq_def]
    simp +decide
  | cons c t ih =>
    intro rest
    rw [escapeStr_cons, List.append_assoc]
    by_cases h1 : c = '"'
    · subst h1
      rw [show escChar '"' = ['\\', '"'] from by decide]
      simp only [List.cons_append, List.nil_append]
      rw [psb_esc_quote, ih, consCh_some]
    · by_cases h2 : c = '\\'
      · subst h2
        rw [show escChar '\\' = ['\\', '\\'] from by decide]
        simp only [List.cons_append, List.nil_append]
        rw [psb_esc_backslash, ih, consCh_some]
      · by_cases h3 : c = '\n'
        · subst h3
          rw [show escChar '\n' = ['\\', 'n'] from by decide]
          simp only [List.cons_append, List.nil_append]
          rw [psb_esc_n, ih, consCh_some]
        · by_cases h4 : c = '\x0d'
          · subst h4
            rw [show escChar '\x0d' = ['\\', 'r'] from by decide]
            simp only [List.cons_append, List.nil_append]
            rw [psb_esc_r, ih, consCh_some]
          · by_cases h5 : c = '\t'
            · subst h5
              rw [show escChar '\t' = ['\\', 't'] from by decide]
              simp only [List.cons_append, List.nil_append]
              rw [psb_esc_t, ih, consCh_some]
            · by_cases h6 : c = '\x08'
              · subst h6
                rw [show escChar '\x08' = ['\\', 'b'] from by decide]
                simp only [List.cons_append, List.nil_append]
                rw [psb_esc_b, ih, consCh_some]
              · by_cases h7 : c = '\x0c'
                · subst h7
                  rw [show escChar '\x0c' = ['\\', 'f'] from by decide]
                  simp only [List.cons_append, List.nil_append]
                  rw [psb_esc_f, ih, consCh_some]
                · by_cases hctl : c.toNat < 32
                  · have he : escChar c =
                        ['\\', 'u', '0', '0', hexDigitChar (c.toNat / 16),
                          hexDigitChar (c.toNat % 16)] := by
                      simp only [escChar, beq_iff_eq]
                      rw [if_neg h1, if_neg h2, if_neg (by intro h; exact h3 h),
                        if_neg h4, if_neg h5, if_neg h6, if_neg h7, if_pos hctl]
                    rw [he]
                    simp only [List.cons_append, List.nil_append]
                    rw [psb_esc_u _ _ _ _ _ (hexVal_hexDigitChar _ (by omega))
                      (hexVal_hexDigitChar _ (by omega)), ih, consCh_some]
                    rw [show c.toNat / 16 * 16 + c.toNat % 16 = c.toNat from by omega,
                      Char.ofNat_toNat]
                  · have he : escChar c = [c] := by
                      simp only [escChar, beq_iff_eq]
                      rw [if_neg h1, if_neg h2, if_neg (by intro h; exact h3 h),
                        if_neg h4, if_neg h5, if_neg h6, if_neg h7, if_neg hctl]
                    rw [he, List.singleton_append, psb_plain c _ h1 h2 hctl, ih, consCh_some]

theorem expectLit_here (pat s : Str) : expectLit pat (pat ++ s) = some s := by
  unfold expectLit
  rw [if_pos (isPrefixOf_self_append pat s), List.drop_left]

theorem parseString_dumpStr (t X : Str) : parseString (dumpStr t ++ X) = some (t, X) := by
  rw [show dumpStr t ++ X = '"' :: (escapeStr t ++ '"' :: X) from by
    simp [dumpStr, List.append_assoc]]
  rw [show parseString ('"' :: (escapeStr t ++ '"' :: X)) =
    parseStringBody (escapeStr t ++ '"' :: X) from rfl]
  exact parseStringBody_escape t X

theorem skipWs_cons_not (c : Char) (s : Str) (h : wsChar c = false) :
    skipWs (c :: s) = c :: s := by
  rw [skipWs, List.dropWhile_cons, if_neg (by simp [h])]

theorem skipWs_nl4 (s : Str) : skipWs (nl4 ++ s) = skipWs s :=
  dropWhile_app_all _ _ (by decide)

theorem skipWs_nl2 (s : Str) : skipWs (nl2 ++ s) = skipWs s :=
  dropWhile_app_all _ _ (by decide)

theorem skipWs_id (s : Str) : skipWs (str "\"id\"" ++ s) = str "\"id\"" ++ s := by
  rw [show str "\"id\"" ++ s = '"' :: (str "id\"" ++ s) from rfl,
    skipWs_cons_not _ _ (by decide)]

theorem skipWs_title (s : Str) : skipWs (str "\"title\"" ++ s) = str "\"title\"" ++ s := by
  rw [show str "\"title\"" ++ s = '"' :: (str "title\"" ++ s) from rfl,
    skipWs_cons_not _ _ (by decide)]

theorem skipWs_content (s : Str) :
    skipWs (str "\"content\"" ++ s) = str "\"content\"" ++ s := by
  rw [show str "\"content\"" ++ s = '"' :: (str "content\"" ++ s) from rfl,
    skipWs_cons_not _ _ (by decide)]

theorem skipWs_colon (s : Str) : skipWs (str ": " ++ s) = str ": " ++ s := by
  rw [show str ": " ++ s = ':' :: (str " " ++ s) from rfl,
    skipWs_cons_not _ _ (by decide)]

theorem skipWs_comma (s : Str) : skipWs (str "," ++ s) = str "," ++ s := by
  rw [show str "," ++ s = ',' :: s from rfl, skipWs_cons_not _ _ (by decide)]

theorem skipWs_rbrace (s : Str) : skipWs (str "\x7d" ++ s) = str "\x7d" ++ s := by
  rw [show str "\x7d" ++ s = '\x7d' :: s from rfl, skipWs_cons_not _ _ (by decide)]

theorem skipWs_dumpStr (t s : Str) : skipWs (dumpStr t ++ s) = dumpStr t ++ s := by
  rw [show dumpStr t ++ s = '"' :: (escapeStr t ++ ['"'] ++ s) from by
    simp [dumpStr, List.append_assoc]]
  rw [skipWs_cons_not _ _ (by decide)]

theorem isDigit_not_ws (c : Char) (h : isDigitChar c = true) : wsChar c = false := by
  cases hw : wsChar c with
  | false => rfl
  | true =>
    exfalso
    unfold wsChar at hw
    simp only [Bool.or_eq_true, beq_iff_eq] at hw
    rcases hw with ((h1 | h1) | h1) | h1 <;> (subst h1; exact absurd h (by decide))

theorem skipWs_intRepr (i : Int) (s : Str) :
    skipWs (intRepr i ++ s) = intRepr i ++ s := by
  unfold intRepr
  by_cases hneg : i < 0
  · rw [if_pos hneg, List.cons_append, skipWs_cons_not _ _ (by decide)]
  · rw [if_neg hneg]
    obtain ⟨c, t, hct⟩ : ∃ c t, natRepr i.toNat = c :: t := by
      cases hnr : natRepr i.toNat with
      | nil => exact absurd hnr (natRepr_ne_nil _)
      | cons c t => exact ⟨c, t, rfl⟩
    have hcd := natRepr_all_digits i.toNat c (by rw [hct]; simp)
    rw [hct, List.cons_append, skipWs_cons_not _ _ (isDigit_not_ws c hcd)]

theorem skipWs_sp_intRepr (i : Int) (s : Str) :
    skipWs (str " " ++ (intRepr i ++ s)) = intRepr i ++ s := by
  rw [show str " " ++ (intRepr i ++ s) = ' ' :: (intRepr i ++ s) from rfl]
  rw [show skipWs (' ' :: (intRepr i ++ s)) = skipWs (intRepr i ++ s) from by
    rw [skipWs, List.dropWhile_cons, if_pos (by decide)]
    rfl]
  exact skipWs_intRepr i s

theorem skipWs_sp_dumpStr (t s : Str) :
    skipWs (str " " ++ (dumpStr t ++ s)) = dumpStr t ++ s := by
  rw [show str " " ++ (dumpStr t ++ s) = ' ' :: (dumpStr t ++ s) from rfl]
  rw [show skipWs (' ' :: (dumpStr t ++ s)) = skipWs (dumpStr t ++ s) from by
    rw [skipWs, List.dropWhile_cons, if_pos (by decide)]
    rfl]
  exact skipWs_dumpStr t s

theorem expectChar_colon (s : Str) : expectChar ':' (str ": " ++ s) = some (str " " ++ s) := by
  rw [show str ": " ++ s = ':' :: (str " " ++ s) from rfl]
  simp [expectChar]

theorem expectChar_comma (s : Str) : expectChar ',' (str "," ++ s) = some s := by
  rw [show str "," ++ s = ',' :: s from rfl]
  simp [expectChar]

theorem expectChar_rbrace (s : Str) : expectChar '\x7d' (str "\x7d" ++ s) = some s := by
  rw [show str "\x7d" ++ s = '\x7d' :: s from rfl]
  simp [expectChar]

theorem parseInt_comma (i : Int) (s : Str) :
    parseInt (intRepr i ++ (str "," ++ s)) = some (i, str "," ++ s) :=
  parseInt_intRepr i _ (by
    rw [show str "," ++ s = ',' :: s from rfl, List.takeWhile_cons, if_neg (by decide)])

theorem parsePostObj_dump (p : Post) (rest : Str) :
    parsePostObj (dumpPost p ++ rest) = some (p, rest) := by
  obtain ⟨i, ti, ct⟩ := p
  rw [show dumpPost ⟨i, ti, ct⟩ ++ rest =
    str "\x7b" ++ (nl4 ++ (str "\"id\"" ++ (str ": " ++ (intRepr i ++ (str "," ++
      (nl4 ++ (str "\"title\"" ++ (str ": " ++ (dumpStr ti ++ (str "," ++
      (nl4 ++ (str "\"content\"" ++ (str ": " ++ (dumpStr ct ++ (nl2 ++
      (str "\x7d" ++ rest)))))))))))))))) from by
    simp [dumpPost, List.append_assoc]]
  rw [parsePostObj]
  rw [expectLit_here, Option.some_bind]
  rw [skipWs_nl4, skipWs_id, expectLit_here, Option.some_bind]
  rw [skipWs_colon, expectChar_colon, Option.some_bind]
  rw [skipWs_sp_intRepr, parseInt_comma, Option.some_bind]
  rw [skipWs_comma, expectChar_comma, Option.some_bind]
  rw [skipWs_nl4, skipWs_title, expectLit_here, Option.some_bind]
  rw [skipWs_colon, expectChar_colon, Option.some_bind]
  rw [skipWs_sp_dumpStr, parseString_dumpStr, Option.some_bind]
  rw [skipWs_comma, expectChar_comma, Option.some_bind]
  rw [skipWs_nl4, skipWs_content, expectLit_here, Option.some_bind]
  rw [skipWs_colon, expectChar_colon, Option.some_bind]
  rw [skipWs_sp_dumpStr, parseString_dumpStr, Option.some_bind]
  rw [skipWs_nl2, skipWs_rbrace, expectChar_rbrace]
  rfl

theorem dumpPost_head (q : Post) : ∃ t, dumpPost q = '\x7b' :: t := ⟨_, rfl⟩

theorem skipWs_dumpPost (q : Post) (x : Str) :
    skipWs (dumpPost q ++ x) = dumpPost q ++ x := by
  obtain ⟨t, ht⟩ := dumpPost_head q
  rw [ht, List.cons_append, skipWs_cons_not _ _ (by decide)]

theorem joinSep_cons_cons (sep x y : Str) (xs : List Str) :
    joinSep sep (x :: y :: xs) = x ++ (sep ++ joinSep sep (y :: xs)) := by
  rw [show joinSep sep (x :: y :: xs) = x ++ sep ++ joinSep sep (y :: xs) from rfl,
    List.append_assoc]

theorem skipWs_joinPosts (q : Post) (l2 : List Post) (x : Str) :
    skipWs (joinSep (str "," ++ nl2) ((q :: l2).map dumpPost) ++ x) =
      joinSep (str "," ++ nl2) ((q :: l2).map dumpPost) ++ x := by
  cases l2 with
  | nil =>
    rw [show joinSep (str "," ++ nl2) ((q :: []).map dumpPost) = dumpPost q from rfl]
    exact skipWs_dumpPost q x
  | cons r l3 =>
    rw [List.map_cons, List.map_cons, joinSep_cons_cons, List.append_assoc]
    exact skipWs_dumpPost q _

theorem skipWs_nl_rbracket (rest : Str) :
    skipWs (str "\n" ++ (str "]" ++ rest)) = ']' :: rest := by
  rw [show str "\n" ++ (str "]" ++ rest) = '\n' :: ']' :: rest from rfl]
  rw [show skipWs ('\n' :: ']' :: rest) = skipWs (']' :: rest) from by
    rw [skipWs, List.dropWhile_cons, if_pos (by decide)]
    rfl]
  rw [skipWs_cons_not _ _ (by decide)]

theorem skipWs_comma_cons (s : Str) : skipWs (str "," ++ s) = ',' :: s := by
  rw [show str "," ++ s = ',' :: s from rfl, skipWs_cons_not _ _ (by decide)]

theorem parseItems_joined : ∀ (l : List Post) (p : Post) (fuel : Nat) (rest : Str),
    l.length < fuel →
    parseItems fuel (joinSep (str "," ++ nl2) ((p :: l).map dumpPost) ++
      (str "\n" ++ (str "]" ++ rest))) = some (p :: l, rest) := by
  intro l
  induction l with
  | nil =>
    intro p fuel rest hf
    cases fuel with
    | zero => omega
    | succ f =>
      rw [show joinSep (str "," ++ nl2) ((p :: []).map dumpPost) = dumpPost p from rfl]
      simp only [parseItems]
      rw [parsePostObj_dump, Option.some_bind]
      simp only []
      rw [skipWs_nl_rbracket]
      simp +decide only []
  | cons q l2 ih =>
    intro p fuel rest hf
    cases fuel with
    | zero => omega
    | succ f =>
      rw [List.map_cons, List.map_cons, joinSep_cons_cons]
      simp only [List.append_assoc]
      simp only [parseItems]
      rw [parsePostObj_dump, Option.some_bind]
      simp only []
      rw [skipWs_comma_cons]
      simp +decide only []
      rw [show skipWs (nl2 ++ (joinSep (str "," ++ nl2) (dumpPost q :: l2.map dumpPost) ++
          (str "\n" ++ (str "]" ++ rest)))) =
        joinSep (str "," ++ nl2) (dumpPost q :: l2.map dumpPost) ++
          (str "\n" ++ (str "]" ++ rest)) from by
        rw [skipWs_nl2]
        rw [show (dumpPost q :: l2.map dumpPost) = (q :: l2).map dumpPost from rfl]
        exact skipWs_joinPosts q l2 _]
      rw [show (dumpPost q :: l2.map dumpPost) = (q :: l2).map dumpPost from rfl]
      rw [ih q f rest (by simpa using Nat.lt_of_succ_lt_succ hf)]
      rfl

theorem dumpPost_length_pos (p : Post) : 0 < (dumpPost p).length := by
  obtain ⟨t, ht⟩ := dumpPost_head p
  rw [ht]
  simp

theorem joinPosts_length_ge : ∀ (l : List Post) (p : Post),
    l.length ≤ (joinSep (str "," ++ nl2) ((p :: l).map dumpPost)).length := by
  intro l
  induction l with
  | nil => simp
  | cons q l2 ih =>
    intro p
    rw [List.map_cons, List.map_cons, joinSep_cons_cons]
    rw [show (dumpPost q :: l2.map dumpPost) = (q :: l2).map dumpPost from rfl]
    have h1 := dumpPost_length_pos p
    have h2 := ih q
    simp only [List.length_append, List.length_cons]
    omega

theorem skipWs_lbracket_cons (s : Str) : skipWs (str "[" ++ s) = '[' :: s := by
  rw [show str "[" ++ s = '[' :: s from rfl, skipWs_cons_not _ _ (by decide)]

theorem parsePosts_dumpPosts (ps : List Post) : parsePosts (dumpPosts ps) = some ps := by
  cases ps with
  | nil => decide
  | cons p l =>
    unfold parsePosts
    rw [show dumpPosts (p :: l) =
      str "[" ++ (nl2 ++ (joinSep (str "," ++ nl2) ((p :: l).map dumpPost) ++
        (str "\n" ++ (str "]" ++ ([] : Str))))) from by
      simp [dumpPosts, List.append_assoc]]
    rw [skipWs_lbracket_cons]
    simp +decide only []
    rw [skipWs_nl2, skipWs_joinPosts]
    obtain ⟨t, ht⟩ : ∃ t, joinSep (str "," ++ nl2) ((p :: l).map dumpPost) ++
        (str "\n" ++ (str "]" ++ ([] : Str))) = '\x7b' :: t := by
      cases l with
      | nil =>
        obtain ⟨u, hu⟩ := dumpPost_head p
        exact ⟨u ++ (str "\n" ++ (str "]" ++ ([] : Str))), by
          rw [show joinSep (str "," ++ nl2) ((p :: []).map dumpPost) = dumpPost p from rfl,
            hu, List.cons_append]⟩
      | cons q l2 =>
        obtain ⟨u, hu⟩ := dumpPost_head p
        exact ⟨(u ++ (str "," ++ nl2 ++
            joinSep (str "," ++ nl2) (dumpPost q :: List.map dumpPost l2))) ++
            (str "\n" ++ (str "]" ++ ([] : Str))), by
          rw [List.map_cons, List.map_cons, joinSep_cons_cons, hu, List.cons_append,
            List.cons_append]⟩
    rw [ht]
    split
    · rename_i r2 heq
      injection heq with hch
      exact absurd hch (by decide)
    · rw [← ht]
      rw [parseItems_joined l p _ [] (by
        have h1 := joinPosts_length_ge l p
        simp only [List.length_append]
        omega)]
      rfl

/-- Loading the file state written by `_save_posts` gives back the saved
collection (shared helper). -/
theorem loadPosts_dump (ps : List Post) : loadPosts (some (dumpPosts ps)) = ps := by
  show (parsePosts (dumpPosts ps)).getD [] = ps
  rw [parsePosts_dumpPosts]
  rfl

/-- Claim C8: for every collection of posts, saving the collection with
`_save_posts` and then reading it back with `_load_posts` returns the
collection that was saved. -/
theorem save_load_roundtrip (posts : List Post) :
    loadPosts (savePosts posts) = posts := by
  show (parsePosts (dumpPosts posts)).getD [] = posts
  rw [parsePosts_dumpPosts]
  rfl


/-! ## Claims on the store, GET routing and the blog page -/

/-- Claim C2: `_load_posts` returns the empty collection whenever the
backing file is absent or its contents fail to parse, with no exception
surfacing (the function is total), and otherwise returns the full stored
collection; concretely, the corrupted content `"not json"` loads as the
empty collection. -/
theorem loadPosts_absent_or_invalid_empty :
    loadPosts none = [] ∧
    (∀ s : Str, parsePosts s = none → loadPosts (some s) = []) ∧
    (∀ (s : Str) (c : List Post), parsePosts s = some c → loadPosts (some s) = c) ∧
    loadPosts (some (str "not json")) = [] := by
  refine ⟨rfl, ?_, ?_, by decide⟩
  · intro s h
    show (parsePosts s).getD [] = []
    rw [h]
    rfl
  · intro s c h
    show (parsePosts s).getD [] = c
    rw [h]
    rfl

/-- Witness for C2 at concrete file contents: a corrupted file loads as
`[]`, a well-formed one loads as the stored collection. -/
theorem loadPosts_absent_or_invalid_empty_witness :
    loadPosts (some (str "\x7b[")) = [] ∧
    loadPosts (some (dumpPosts [⟨7, str "a", str "b"⟩])) = [⟨7, str "a", str "b"⟩] :=
  ⟨loadPosts_absent_or_invalid_empty.2.1 (str "\x7b[") (by decide),
   loadPosts_absent_or_invalid_empty.2.2.1 (dumpPosts [⟨7, str "a", str "b"⟩])
     [⟨7, str "a", str "b"⟩] (by decide)⟩

/-- Claim C5: `GET /blog` renders the posts sorted by id in descending
order (the rendered sequence is a permutation of the stored posts,
sorted by the descending-id relation); for ids `[1,3,2]` the blocks
appear in order `3,2,1`; an empty collection renders the placeholder
message. -/
theorem blog_renders_sorted_desc :
    (∀ posts : List Post,
      List.Sorted postGe (sortPostsDesc posts) ∧ (sortPostsDesc posts).Perm posts) ∧
    (∀ (tmpl : String → Str) (file : Option Str),
      doGet tmpl file (str "/blog") =
        GetResponse.page (renderTemplate (tmpl "blog_static.html")
          [(str "title", str "Blog"), (str "posts", postsHtml (loadPosts file))])) ∧
    postsHtml [⟨1, str "t1", str "c1"⟩, ⟨3, str "t3", str "c3"⟩, ⟨2, str "t2", str "c2"⟩] =
      postDiv ⟨3, str "t3", str "c3"⟩ ++ '\n' ::
        (postDiv ⟨2, str "t2", str "c2"⟩ ++ '\n' :: postDiv ⟨1, str "t1", str "c1"⟩) ∧
    postsHtml [] = emptyBlogMsg := by
  refine ⟨fun posts => ⟨List.sorted_insertionSort postGe posts,
    List.perm_insertionSort postGe posts⟩, fun tmpl file => rfl, by decide, rfl⟩

theorem stripQuery_no_query (p : Str) (h : '?' ∉ p) : stripQuery p = p := by
  induction p with
  | nil => rfl
  | cons c t ih =>
    have hc : c ≠ '?' := fun he => h (by simp [he])
    unfold stripQuery
    rw [List.takeWhile_cons, if_pos (by simp [hc])]
    rw [show List.takeWhile (fun c => c != '?') t = stripQuery t from rfl,
      ih (fun hm => h (by simp [hm]))]

theorem stripQuery_strips (p q : Str) (h : '?' ∉ p) : stripQuery (p ++ '?' :: q) = p := by
  induction p with
  | nil =>
    unfold stripQuery
    rw [List.nil_append, List.takeWhile_cons, if_neg (by simp)]
  | cons c t ih =>
    have hc : c ≠ '?' := fun he => h (by simp [he])
    unfold stripQuery
    rw [List.cons_append, List.takeWhile_cons, if_pos (by simp [hc])]
    rw [show List.takeWhile (fun c => c != '?') (t ++ '?' :: q) =
      stripQuery (t ++ '?' :: q) from rfl, ih (fun hm => h (by simp [hm]))]

/-- Claim C9: GET routing is decided on the path with the query string
stripped; a request for `p?q` is dispatched and rendered exactly as a
request for `p`. -/
theorem doGet_ignores_query (tmpl : String → Str) (file : Option Str) (p q : Str)
    (h : '?' ∉ p) :
    doGet tmpl file (p ++ '?' :: q) = doGet tmpl file p := by
  unfold doGet
  rw [stripQuery_strips p q h, stripQuery_no_query p h]

/-- Witness for C9: `/blog?x=1` is served exactly as `/blog`. -/
theorem doGet_ignores_query_witness :
    doGet (fun _ => []) none (str "/blog" ++ '?' :: str "x=1") =
      doGet (fun _ => []) none (str "/blog") :=
  doGet_ignores_query (fun _ => []) none (str "/blog") (str "x=1") (by decide)

/-- Claim C6: posting `title=T&content=C` with an empty store saves
exactly one post with id 1, title `T`, content `C`, and responds with a
303 redirect to `/blog`. -/
theorem create_first_post :
    doPost newPostPath (str "title=T&content=C") none =
      (some (dumpPosts [⟨1, str "T", str "C"⟩]), PostResponse.redirect 303 (str "/blog")) ∧
    loadPosts (doPost newPostPath (str "title=T&content=C") none).1 =
      [⟨1, str "T", str "C"⟩] := ⟨by decide, by decide⟩


/-! ## do_POST lemmas -/

theorem doPost_adds (body : Str) (file : Option Str)
    (ht : bodyTitle body ≠ []) (hc : bodyContent body ≠ []) :
    doPost newPostPath body file =
      (savePosts (loadPosts file ++
        [⟨nextId (loadPosts file), bodyTitle body, bodyContent body⟩]),
       PostResponse.redirect 303 (str "/blog")) := by
  have htl : (List.lookup (str "title") (parse_qs body)).getD [] ≠ [] := by
    intro he
    exact ht (by unfold bodyTitle; rw [he]; decide)
  have hcl : (List.lookup (str "content") (parse_qs body)).getD [] ≠ [] := by
    intro he
    exact hc (by unfold bodyContent; rw [he]; decide)
  unfold doPost
  rw [if_pos rfl]
  simp only []
  rw [if_pos ⟨htl, hcl⟩, if_pos ⟨ht, hc⟩]
  rfl

theorem doPost_skips (body : Str) (file : Option Str)
    (h : bodyTitle body = [] ∨ bodyContent body = []) :
    doPost newPostPath body file = (file, PostResponse.redirect 303 (str "/blog")) := by
  unfold doPost
  rw [if_pos rfl]
  simp only []
  by_cases h1 : (List.lookup (str "title") (parse_qs body)).getD [] ≠ [] ∧
      (List.lookup (str "content") (parse_qs body)).getD [] ≠ []
  · rw [if_pos h1, if_neg]
    intro hi
    rcases h with h | h
    · exact hi.1 h
    · exact hi.2 h
  · rw [if_neg h1]

theorem foldl_max_mem (x : Int) (xs : List Int) : List.foldl max x xs ∈ x :: xs := by
  induction xs generalizing x with
  | nil => simp
  | cons y ys ih =>
    rw [List.foldl_cons]
    rcases List.mem_cons.mp (ih (max x y)) with h | h
    · rw [h]
      rcases max_choice x y with hm | hm <;> rw [hm] <;> simp
    · simp [h]

theorem le_foldl_max (x : Int) (xs : List Int) : ∀ y ∈ x :: xs, y ≤ List.foldl max x xs := by
  induction xs generalizing x with
  | nil =>
    intro y hy
    simp at hy
    simp [hy]
  | cons z zs ih =>
    intro y hy
    rw [List.foldl_cons]
    rcases List.mem_cons.mp hy with h | h
    · subst h
      exact le_trans (le_max_left y z) (ih (max y z) _ (by simp))
    · rcases List.mem_cons.mp h with h2 | h2
      · subst h2
        exact le_trans (le_max_right x y) (ih (max x y) _ (by simp))
      · exact ih (max x z) y (by simp [h2])

theorem maxDefault_cons (x : Int) (xs : List Int) (d : Int) :
    maxDefault (x :: xs) d = List.foldl max x xs := rfl

theorem nextId_gt (posts : List Post) : ∀ p ∈ posts, p.id < nextId posts := by
  intro p hp
  unfold nextId
  cases hm : posts.map Post.id with
  | nil => exact absurd (List.map_eq_nil_iff.mp hm ▸ hp) (List.not_mem_nil p)
  | cons x xs =>
    rw [maxDefault_cons]
    have hmem : p.id ∈ x :: xs := by
      rw [← hm]
      exact List.mem_map_of_mem Post.id hp
    have h2 := le_foldl_max x xs p.id hmem
    omega

theorem nextId_succ_mem (posts : List Post) (h : posts ≠ []) :
    ∃ q ∈ posts, nextId posts = q.id + 1 := by
  unfold nextId
  cases hm : posts.map Post.id with
  | nil => exact absurd (List.map_eq_nil_iff.mp hm) h
  | cons x xs =>
    rw [maxDefault_cons]
    have hmem : List.foldl max x xs ∈ x :: xs := foldl_max_mem x xs
    rw [← hm] at hmem
    obtain ⟨q, hq, he⟩ := List.mem_map.mp hmem
    exact ⟨q, hq, by rw [he]⟩

/-- Claim C1: when `POST /admin/new_post` creates a post, the stored
collection becomes the old one with a single appended post whose id is
`1` on an empty store and `max(existing ids) + 1` otherwise (one more
than an id present in the store, and strictly above every stored id). -/
theorem new_post_id_is_max_succ (body : Str) (file : Option Str)
    (ht : bodyTitle body ≠ []) (hc : bodyContent body ≠ []) :
    loadPosts (doPost newPostPath body file).1 =
      loadPosts file ++ [⟨nextId (loadPosts file), bodyTitle body, bodyContent body⟩] ∧
    (loadPosts file = [] → nextId (loadPosts file) = 1) ∧
    (loadPosts file ≠ [] →
      (∃ q ∈ loadPosts file, nextId (loadPosts file) = q.id + 1) ∧
      ∀ q ∈ loadPosts file, q.id < nextId (loadPosts file)) := by
  refine ⟨?_, ?_, ?_⟩
  · rw [doPost_adds body file ht hc]
    exact loadPosts_dump _
  · intro he
    rw [he]
    decide
  · intro hne
    refine ⟨nextId_succ_mem _ hne, ?_⟩
    intro q hq
    exact nextId_gt _ q hq

/-- Witness for C1 on a store holding one post with id 5. -/
theorem new_post_id_is_max_succ_witness :
    loadPosts (doPost newPostPath (str "title=T&content=C")
        (some (dumpPosts [⟨5, str "a", str "b"⟩]))).1 =
      loadPosts (some (dumpPosts [⟨5, str "a", str "b"⟩])) ++
        [⟨nextId (loadPosts (some (dumpPosts [⟨5, str "a", str "b"⟩]))),
          bodyTitle (str "title=T&content=C"), bodyContent (str "title=T&content=C")⟩] ∧
    (loadPosts (some (dumpPosts [⟨5, str "a", str "b"⟩])) = [] →
      nextId (loadPosts (some (dumpPosts [⟨5, str "a", str "b"⟩]))) = 1) ∧
    (loadPosts (some (dumpPosts [⟨5, str "a", str "b"⟩])) ≠ [] →
      (∃ q ∈ loadPosts (some (dumpPosts [⟨5, str "a", str "b"⟩])),
        nextId (loadPosts (some (dumpPosts [⟨5, str "a", str "b"⟩]))) = q.id + 1) ∧
      ∀ q ∈ loadPosts (some (dumpPosts [⟨5, str "a", str "b"⟩])),
        q.id < nextId (loadPosts (some (dumpPosts [⟨5, str "a", str "b"⟩])))) :=
  new_post_id_is_max_succ (str "title=T&content=C")
    (some (dumpPosts [⟨5, str "a", str "b"⟩])) (by decide) (by decide)

/-- Claim C3: any `POST /admin/new_post` request preserves uniqueness of
the stored id values. -/
theorem create_preserves_unique_ids (body : Str) (file : Option Str)
    (h : ((loadPosts file).map Post.id).Nodup) :
    ((loadPosts (doPost newPostPath body file).1).map Post.id).Nodup := by
  by_cases hcond : bodyTitle body ≠ [] ∧ bodyContent body ≠ []
  · rw [doPost_adds body file hcond.1 hcond.2]
    rw [show loadPosts ((savePosts (loadPosts file ++
        [⟨nextId (loadPosts file), bodyTitle body, bodyContent body⟩]),
        PostResponse.redirect 303 (str "/blog")).1) =
      loadPosts file ++ [⟨nextId (loadPosts file), bodyTitle body, bodyContent body⟩]
      from loadPosts_dump _]
    rw [List.map_append, List.nodup_append]
    refine ⟨h, by simp, ?_⟩
    intro a ha hb
    simp only [List.map_cons, List.map_nil, List.mem_cons, List.not_mem_nil,
      or_false] at hb
    obtain ⟨q, hq, hqa⟩ := List.mem_map.mp ha
    have := nextId_gt (loadPosts file) q hq
    rw [hqa] at this
    simp only [hb] at this
    omega
  · have h2 : bodyTitle body = [] ∨ bodyContent body = [] := by
      by_cases h3 : bodyTitle body = []
      · exact Or.inl h3
      · exact Or.inr (by
          by_cases h4 : bodyContent body = []
          · exact h4
          · exact absurd ⟨h3, h4⟩ hcond)
    rw [doPost_skips body file h2]
    exact h

/-- Witness for C3 on a store holding posts with ids 1 and 2. -/
theorem create_preserves_unique_ids_witness :
    ((loadPosts (doPost newPostPath (str "title=T&content=C")
        (some (dumpPosts [⟨1, str "a", str "b"⟩, ⟨2, str "c", str "d"⟩]))).1).map
      Post.id).Nodup :=
  create_preserves_unique_ids (str "title=T&content=C")
    (some (dumpPosts [⟨1, str "a", str "b"⟩, ⟨2, str "c", str "d"⟩])) (by decide)

/-! ## parse_qs grouping lemmas -/

theorem addToGroup_cons (m : Str) (vs : List Str) (rest : List (Str × List Str))
    (n v : Str) :
    addToGroup ((m, vs) :: rest) n v =
      if (m == n) = true then (m, vs ++ [v]) :: rest
      else (m, vs) :: addToGroup rest n v := by
  rw [addToGroup.eq_def]

theorem lookup_addToGroup_same (acc : List (Str × List Str)) (n v : Str) :
    List.lookup n (addToGroup acc n v) = some ((List.lookup n acc).getD [] ++ [v]) := by
  induction acc with
  | nil => simp [addToGroup, List.lookup]
  | cons e rest ih =>
    obtain ⟨m, vs⟩ := e
    by_cases hmn : m = n
    · subst hmn
      rw [addToGroup_cons, if_pos (by simp)]
      simp [List.lookup]
    · rw [addToGroup_cons, if_neg (by simp [hmn])]
      have hnm : (n == m) = false := by simp [Ne.symm hmn]
      simp [List.lookup, hnm, ih]

theorem lookup_addToGroup_other (acc : List (Str × List Str)) (n m v : Str)
    (h : n ≠ m) :
    List.lookup n (addToGroup acc m v) = List.lookup n acc := by
  induction acc with
  | nil =>
    simp [addToGroup, List.lookup, show (n == m) = false from by simp [h]]
  | cons e rest ih =>
    obtain ⟨k, vs⟩ := e
    by_cases hkm : k = m
    · subst hkm
      rw [addToGroup_cons, if_pos (by simp)]
      have hnk : (n == k) = false := by simp [h]
      simp [List.lookup, hnk]
    · rw [addToGroup_cons, if_neg (by simp [hkm])]
      by_cases hnk : n = k
      · subst hnk
        simp [List.lookup]
      · have hnk2 : (n == k) = false := by simp [hnk]
        simp [List.lookup, hnk2, ih]

theorem lookup_group_values : ∀ (l : List (Str × Str)) (acc : List (Str × List Str)) (n : Str),
    (List.lookup n (l.foldl (fun a nv => addToGroup a nv.1 nv.2) acc)).getD [] =
      (List.lookup n acc).getD [] ++ valuesOf n l := by
  intro l
  induction l with
  | nil =>
    intro acc n
    simp [valuesOf]
  | cons e t ih =>
    intro acc n
    obtain ⟨m, v⟩ := e
    rw [List.foldl_cons]
    rw [ih (addToGroup acc m v) n]
    by_cases hnm : n = m
    · subst hnm
      rw [lookup_addToGroup_same]
      simp only [Option.getD_some]
      rw [show valuesOf n ((n, v) :: t) = v :: valuesOf n t from by
        simp [valuesOf, List.filter_cons]]
      simp [List.append_assoc]
    · rw [lookup_addToGroup_other acc n m v hnm]
      rw [show valuesOf n ((m, v) :: t) = valuesOf n t from by
        simp [valuesOf, List.filter_cons, Ne.symm hnm]]

theorem head_values (l : List (Str × Str)) (n : Str) :
    (valuesOf n l).headD [] = (List.lookup n l).getD [] := by
  induction l with
  | nil => simp [valuesOf, List.lookup]
  | cons e t ih =>
    obtain ⟨m, v⟩ := e
    by_cases hmn : m = n
    · subst hmn
      simp [valuesOf, List.filter_cons, List.lookup]
    · have hnm : (n == m) = false := by simp [Ne.symm hmn]
      have hmn2 : (m == n) = false := by simp [hmn]
      rw [show valuesOf n ((m, v) :: t) = valuesOf n t from by
        simp [valuesOf, List.filter_cons, hmn2]]
      rw [show List.lookup n ((m, v) :: t) = List.lookup n t from by
        simp [List.lookup, hnm]]
      exact ih

theorem bodyTitle_eq_first (body : Str) :
    bodyTitle body = pyStrip (firstFieldValue (str "title") body) := by
  unfold bodyTitle firstFieldValue parse_qs
  rw [lookup_group_values (parse_qsl body) [] (str "title")]
  rw [show (List.lookup (str "title") ([] : List (Str × List Str))).getD [] = [] from rfl,
    List.nil_append, head_values]

theorem bodyContent_eq_first (body : Str) :
    bodyContent body = pyStrip (firstFieldValue (str "content") body) := by
  unfold bodyContent firstFieldValue parse_qs
  rw [lookup_group_values (parse_qsl body) [] (str "content")]
  rw [show (List.lookup (str "content") ([] : List (Str × List Str))).getD [] = [] from rfl,
    List.nil_append, head_values]

/-- Claim C7: when the body's first `title` field is missing, empty, or
whitespace-only (it trims to the empty string), `do_POST` leaves the
stored file unchanged and still responds with a 303 redirect to `/blog`
and no error indication. -/
theorem blank_title_unchanged (body : Str) (file : Option Str)
    (h : pyStrip (firstFieldValue (str "title") body) = []) :
    doPost newPostPath body file = (file, PostResponse.redirect 303 (str "/blog")) :=
  doPost_skips body file (Or.inl (by rw [bodyTitle_eq_first]; exact h))

/-- Witness for C7: a whitespace-only title (`+` decodes to a space)
leaves the empty store empty and redirects. -/
theorem blank_title_unchanged_witness :
    doPost newPostPath (str "title=+&content=C") none =
      (none, PostResponse.redirect 303 (str "/blog")) :=
  blank_title_unchanged (str "title=+&content=C") none (by decide)

/-- Claim C10: `do_POST` builds the new post from the first occurrence
of `title` and of `content` in the body (later occurrences are ignored):
the result is fully determined by the trimmed first values, and the body
`title=A&title=B&content=C&content=D` stores the post `(1, A, C)`. -/
theorem first_occurrence_used (body : Str) (file : Option Str) :
    doPost newPostPath body file =
      (if pyStrip (firstFieldValue (str "title") body) = [] ∨
          pyStrip (firstFieldValue (str "content") body) = []
       then file
       else savePosts (loadPosts file ++
         [⟨nextId (loadPosts file), pyStrip (firstFieldValue (str "title") body),
           pyStrip (firstFieldValue (str "content") body)⟩]),
       PostResponse.redirect 303 (str "/blog")) ∧
    (doPost newPostPath (str "title=A&title=B&content=C&content=D") none).1 =
      some (dumpPosts [⟨1, str "A", str "C"⟩]) := by
  refine ⟨?_, by decide⟩
  by_cases hcond : bodyTitle body = [] ∨ bodyContent body = []
  · rw [doPost_skips body file hcond, if_pos]
    rcases hcond with h | h
    · exact Or.inl (by rw [← bodyTitle_eq_first]; exact h)
    · exact Or.inr (by rw [← bodyContent_eq_first]; exact h)
  · push_neg at hcond
    rw [doPost_adds body file hcond.1 hcond.2]
    rw [← bodyTitle_eq_first body, ← bodyContent_eq_first body]
    rw [if_neg (by push_neg; exact hcond)]

end HistoriaApp
